import Mathlib

/-
Verification of the mysql-binlog-events trigger registry and dispatch engine.
Strings are modelled as lists of characters; JavaScript Map objects as
association lists; the nondeterministic random tag generator as an explicit
parameter; a thrown exception as the error side of an Except value; and a
TypeError caused by reading a field of undefined as the none case of an
Option-valued result.
-/

/-- Strings of the embedded program are lists of characters. -/
abbrev Str := List Char

/-- Converts a Lean string literal to the embedded string type. -/
def strL (s : String) : Str := s.toList

/-- Splits a string on the dot character, with the semantics of the
JavaScript expression s.split(m): the empty string yields one empty part,
a trailing separator yields a trailing empty part. -/
def splitDot : Str → List Str
  | [] => [[]]
  | c :: cs =>
    if c = ('.') then [] :: splitDot cs
    else
      match splitDot cs with
      | [] => [[c]]
      | p :: ps => (c :: p) :: ps

/-- Rejoins parts with a dot separator; inverse of splitDot. -/
def joinDot : List Str → Str
  | [] => []
  | [p] => p
  | p :: ps => p ++ ('.') :: joinDot ps

/-- The STATEMENTS enum of the source: INSERT, UPDATE, DELETE and the
subscription-side wildcard ALL. -/
inductive STATEMENTS
  | INSERT
  | UPDATE
  | DELETE
  | ALL
deriving DecidableEq, Repr

/-- The error thrown by checkExpression when the input does not split into
exactly two dot-separated parts. -/
inductive ExprError
  | InvalidExpression
deriving DecidableEq, Repr

/-- Embeds checkExpression (mysql-events, lines 94 to 105): the falsy, star
and star-dot-star inputs collapse to a single star; any other input must
split into exactly two parts; an empty schema part becomes a star, then an
empty table part becomes a star, otherwise the input is returned unchanged. -/
def checkExpression (expression : Str) : Except ExprError Str :=
  if expression = [] ∨ expression = strL ("*") ∨ expression = strL ("*.*") then
    Except.ok (strL ("*"))
  else
    match splitDot expression with
    | [p0, p1] =>
      if p0 = [] then Except.ok (strL ("*.") ++ p1)
      else if p1 = [] then Except.ok (p0 ++ strL (".*"))
      else Except.ok expression
    | _ => Except.error ExprError.InvalidExpression

instance {ε α : Type} [DecidableEq ε] [DecidableEq α] : DecidableEq (Except ε α) :=
  fun x y =>
    match x, y with
    | Except.ok a, Except.ok b => decidable_of_iff (a = b) (by simp)
    | Except.error a, Except.error b => decidable_of_iff (a = b) (by simp)
    | Except.ok _, Except.error _ => isFalse (by intro h; cases h)
    | Except.error _, Except.ok _ => isFalse (by intro h; cases h)

/-- Lookup in an association list modelling a JavaScript Map; none models
the undefined result of Map.get on a missing key. -/
def mget {α : Type} : List (Str × α) → Str → Option α
  | [], _ => none
  | (k, v) :: rest, key => if k = key then some v else mget rest key

/-- Map.set semantics: an existing key keeps its position and receives the
new value, a fresh key is appended. -/
def mset {α : Type} : List (Str × α) → Str → α → List (Str × α)
  | [], key, v => [(key, v)]
  | (k, w) :: rest, key, v =>
    if k = key then (key, v) :: rest else (k, w) :: mset rest key v

/-- Map.delete semantics: the entry with the given key is removed. -/
def mdel {α : Type} (m : List (Str × α)) (key : Str) : List (Str × α) :=
  m.filter (fun p => !(p.1 = key : Bool))

/-- Map.has semantics. -/
def mhas {α : Type} (m : List (Str × α)) (key : Str) : Bool :=
  (mget m key).isSome

/-- A subscription object (ITrigger). The handler is an opaque identifier
standing for the callable; an empty tag or expression models an absent
(undefined) field, which is falsy exactly like the empty string; statement
and enable are optional fields, none modelling undefined. -/
structure ITrigger where
  handler : Nat
  tag : Str
  expression : Str
  statement : Option STATEMENTS
  enable : Option Bool
deriving DecidableEq, Repr

/-- The registry state of a MysqlEvent instance: the triggers map keyed by
tag and the tags map keyed by canonical expression. -/
structure Registry where
  triggers : List (Str × ITrigger)
  tags : List (Str × Str)
deriving DecidableEq, Repr

/-- The registry of a freshly constructed instance. -/
def emptyReg : Registry := { triggers := [], tags := [] }

/-- Defaulted tag of a spec passed to add: a falsy tag is replaced by the
freshly generated random tag. -/
def dtagOf (spec : ITrigger) (fresh : Str) : Str :=
  if spec.tag = [] then fresh else spec.tag

/-- Embeds add (mysql-events, lines 64 to 87). The caller-owned object is
mutated in place before the uniqueness check: enable is forced to true,
statement defaults to ALL, a falsy tag is replaced by the generated tag
(passed here as the explicit parameter freshTag standing for the random
generator), and expression is replaced by its normalized form. A thrown
InvalidExpression propagates as the error case, with the object already
partially mutated. On a tag or expression collision the result is ok none
(the source returns null) and the registry is untouched; otherwise both
maps receive their entry and the final tag is returned. The triple holds
the returned value, the registry after the call, and the final state of the
caller-owned argument object. -/
def add (st : Registry) (trg : ITrigger) (freshTag : Str) :
    Except ExprError (Option Str) × Registry × ITrigger :=
  let t1 : ITrigger := { trg with enable := some true }
  let t2 : ITrigger := { t1 with statement := some (t1.statement.getD STATEMENTS.ALL) }
  let t3 : ITrigger := { t2 with tag := if t2.tag = [] then freshTag else t2.tag }
  match checkExpression t3.expression with
  | Except.error e => (Except.error e, st, t3)
  | Except.ok ne =>
    let t4 : ITrigger := { t3 with expression := ne }
    if mhas st.triggers t4.tag || mhas st.tags t4.expression then
      (Except.ok none, st, t4)
    else
      (Except.ok (some t4.tag),
       { triggers := mset st.triggers t4.tag t4, tags := mset st.tags t4.expression t4.tag },
       t4)

/-- Embeds stop (lines 107 to 111): flips enable to false in place when the
tag is known, otherwise does nothing. -/
def stop (st : Registry) (tag : Str) : Registry :=
  match mget st.triggers tag with
  | none => st
  | some g => { st with triggers := mset st.triggers tag { g with enable := some false } }

/-- Embeds start (lines 113 to 117): flips enable to true in place when the
tag is known. -/
def start (st : Registry) (tag : Str) : Registry :=
  match mget st.triggers tag with
  | none => st
  | some g => { st with triggers := mset st.triggers tag { g with enable := some true } }

/-- Embeds remove (lines 119 to 122): only the triggers entry is deleted;
the tags map is not touched by the source. -/
def remove (st : Registry) (tag : Str) : Registry :=
  { st with triggers := mdel st.triggers tag }

/-- A JavaScript value as far as the String() coercion used by the update
diff needs: integers, strings, booleans, null and undefined. -/
inductive JSValue
  | vNum (n : Int)
  | vStr (s : Str)
  | vBool (b : Bool)
  | vNull
  | vUndefined
deriving DecidableEq, Repr

/-- The String() coercion of a JSValue. -/
def jsToStr : JSValue → Str
  | JSValue.vNum n => (toString n).toList
  | JSValue.vStr s => s
  | JSValue.vBool true => strL ("true")
  | JSValue.vBool false => strL ("false")
  | JSValue.vNull => strL ("null")
  | JSValue.vUndefined => strL ("undefined")

/-- A row image: a JavaScript object as an ordered list of fields. -/
abbrev Row := List (Str × JSValue)

/-- Property read on a row object; a missing key yields undefined. -/
def jsGet (r : Row) (k : Str) : JSValue :=
  (mget r k).getD JSValue.vUndefined

/-- A raw replication row: a plain row object for INSERT and DELETE
batches, or an object carrying before and after images for UPDATE. -/
inductive RawRow
  | plain (r : Row)
  | updRow (before afterI : Row)
deriving DecidableEq, Repr

/-- A client-facing change event (IEvent). -/
structure Event where
  action : STATEMENTS
  timestamp : Nat
  database : Str
  table : Str
  changedColumns : List Str
  dataOld : Option RawRow
  dataNew : Option RawRow
deriving DecidableEq, Repr

/-- Insertion into the Set of changed column names: insertion order, no
duplicates. -/
def setAdd (l : List Str) (k : Str) : List Str :=
  if k ∈ l then l else l ++ [k]

/-- Embeds the changed-column loop of the UPDATE branch (lines 187 to 192):
iterate the keys of the before image and collect those whose stringified
before and after values differ. -/
def diffCols (b a : Row) : List Str :=
  b.foldl
    (fun acc kv =>
      if (jsToStr kv.2 = jsToStr (jsGet a kv.1) : Bool) = false then setAdd acc kv.1 else acc)
    []

/-- One iteration of the per-row mutation of the shared event object inside
getManyEvents (lines 177 to 200). For UPDATE on an object without before
and after fields the for-in loop over undefined runs zero times and both
images become undefined, modelled as none. -/
def applyRow (ev : Event) (action : STATEMENTS) (row : RawRow) : Event :=
  let e1 := if action = STATEMENTS.INSERT then { ev with dataNew := some row } else ev
  let e2 := if action = STATEMENTS.DELETE then { e1 with dataOld := some row } else e1
  if action = STATEMENTS.UPDATE then
    match row with
    | RawRow.updRow b a =>
      { e2 with
          dataOld := some (RawRow.plain b)
          dataNew := some (RawRow.plain a)
          changedColumns := diffCols b a }
    | RawRow.plain _ =>
      { e2 with dataOld := none, dataNew := none, changedColumns := [] }
  else e2

/-- Embeds getEventObject (lines 155 to 166): the template event with
database and table obtained by splitting the path. -/
def getEventObject (action : STATEMENTS) (path : Str) (timestamp : Nat) : Event :=
  { action := action,
    timestamp := timestamp,
    database := (splitDot path).headD [],
    table := ((splitDot path).tail).headD [],
    changedColumns := [],
    dataOld := none,
    dataNew := none }

/-- Embeds getManyEvents (lines 175 to 203). The source mutates the single
shared event object and pushes the same reference once per row, so the
array observed by the caller holds the final state of that object at every
index; this is modelled as a replicated fold result. -/
def getManyEvents (event : Event) (action : STATEMENTS) (rows : List RawRow) : List Event :=
  List.replicate rows.length (rows.foldl (fun ev row => applyRow ev action row) event)

/-- The second variant of the event builder present in the repository
(lines 435 to 465 of the bundled source): a fresh event is created from the
template for every row, so each output position reflects its own row. -/
structure ITemplate where
  path : Str
  timestamp : Nat
deriving DecidableEq, Repr

/-- Embeds getEventTemplate of the second variant (lines 473 to 484). -/
def getEventTemplate (action : STATEMENTS) (template : ITemplate) : Event :=
  getEventObject action template.path template.timestamp

/-- Embeds getManyEvents of the second variant (lines 435 to 465). -/
def getManyEvents2 (action : STATEMENTS) (rows : List RawRow) (template : ITemplate) :
    List Event :=
  rows.map (fun row => applyRow (getEventTemplate action template) action row)

/-- The four candidate expressions of the pattern matcher, in the fixed
source order (line 215). -/
def pathOptions (db table : Str) : List Str :=
  [strL ("*"), db ++ strL (".*"), strL ("*.") ++ table, db ++ ('.') :: table]

/-- The candidate loop of getTriggers (lines 217 to 228). A missing or
empty tag is falsy and the candidate is skipped; fetching the trigger for a
tag absent from the triggers map makes the destructuring on line 224 throw,
modelled as the none result aborting the whole call. -/
def runCandidates (st : Registry) (action : STATEMENTS) :
    List Str → List ITrigger → Option (List ITrigger)
  | [], acc => some acc
  | e :: es, acc =>
    match mget st.tags e with
    | none => runCandidates st action es acc
    | some t =>
      if t = [] then runCandidates st action es acc
      else
        match mget st.triggers t with
        | none => none
        | some g =>
          runCandidates st action es
            (if (g.statement = some STATEMENTS.ALL ∨ g.statement = some action) ∧
                g.enable = some true
             then acc ++ [g] else acc)

/-- The pattern matcher on an already split database and table pair
(lines 214 to 230 of getTriggers, after the destructuring of the path). -/
def getTriggersCore (st : Registry) (db table : Str) (action : STATEMENTS) :
    Option (List ITrigger) :=
  runCandidates st action (pathOptions db table) []

/-- Embeds getTriggers (lines 211 to 231): the path is split on dots and
the first two parts become the database and table. -/
def getTriggers (st : Registry) (path : Str) (action : STATEMENTS) :
    Option (List ITrigger) :=
  getTriggersCore st ((splitDot path).headD []) (((splitDot path).tail).headD []) action

/-- One candidate of the matcher as the specification reads it: the
subscription owning the expression, kept when enabled and when its
statement is ALL or equals the action. -/
def candf (st : Registry) (action : STATEMENTS) (e : Str) : Option ITrigger :=
  (mget st.tags e).bind (fun t =>
    (mget st.triggers t).bind (fun g =>
      if g.enable = some true ∧
         (g.statement = some STATEMENTS.ALL ∨ g.statement = some action)
      then some g else none))

/-- The matcher result as the specification describes it: the four
candidates in fixed order, each contributing its owning subscription when
enabled and statement-compatible. -/
def specMatch (st : Registry) (db table : Str) (action : STATEMENTS) : List ITrigger :=
  (pathOptions db table).filterMap (candf st action)

/-- A raw change batch as delivered by the replication stream, with the
table map entry already resolved to its schema and table name. -/
structure BinlogEvent where
  parentSchema : Str
  tableName : Str
  timestamp : Nat
  rows : List RawRow
deriving DecidableEq, Repr

/-- The path string built by eventHandler on line 142. -/
def pathOf (bl : BinlogEvent) : Str :=
  bl.parentSchema ++ ('.') :: bl.tableName

/-- The events materialized for a batch on lines 148 to 149. -/
def builtEvents (bl : BinlogEvent) (action : STATEMENTS) : List Event :=
  getManyEvents (getEventObject action (pathOf bl) bl.timestamp) action bl.rows

/-- The handler invocation trace of the dispatch loop on lines 150 to 152:
for each trigger in matcher order, every event in list order. -/
def dispatchTrace (triggers : List ITrigger) (events : List Event) : List (Nat × Event) :=
  match triggers with
  | [] => []
  | t :: rest => events.map (fun e => (t.handler, e)) ++ dispatchTrace rest events

/-- Embeds eventHandler (lines 139 to 153): match, short-circuit on an
empty subscriber list before any builder work, otherwise build the events
once and run the dispatch loop. The none result models the TypeError a
dangling expression entry provokes inside getTriggers. -/
def eventHandler (st : Registry) (bl : BinlogEvent) (action : STATEMENTS) :
    Option (List (Nat × Event)) :=
  match getTriggers st (pathOf bl) action with
  | none => none
  | some triggers =>
    if triggers.length = 0 then some []
    else some (dispatchTrace triggers (builtEvents bl action))

/-- A string with no dot character. -/
def dotFree (s : Str) : Prop := ('.') ∉ s

/-- The four canonical expression shapes of the specification: the lone
star, a schema wildcard with a proper schema name, a table wildcard with a
proper table name, or an exact pair of proper names. -/
def FourShape (r : Str) : Prop :=
  r = strL ("*") ∨
  (∃ d, dotFree d ∧ d ≠ [] ∧ d ≠ strL ("*") ∧ r = d ++ strL (".*")) ∨
  (∃ t, dotFree t ∧ t ≠ [] ∧ t ≠ strL ("*") ∧ r = strL ("*.") ++ t) ∨
  (∃ d t, dotFree d ∧ dotFree t ∧ d ≠ [] ∧ t ≠ [] ∧
    d ≠ strL ("*") ∧ t ≠ strL ("*") ∧ r = d ++ ('.') :: t)

/-- The dispatch contract of one batch: an empty subscriber list produces
no invocations, otherwise the trace holds one invocation per subscriber and
event pair, blocked per subscriber in matcher order with events in builder
order inside each block. -/
def DispatchSpec (st : Registry) (bl : BinlogEvent) (action : STATEMENTS)
    (subs : List ITrigger) : Prop :=
  (subs = [] → eventHandler st bl action = some []) ∧
  (subs ≠ [] →
    ∃ tr, eventHandler st bl action = some tr ∧
      tr.length = subs.length * bl.rows.length ∧
      ∀ i j, i < subs.length → j < bl.rows.length →
        tr.get? (i * bl.rows.length + j) =
          (subs.get? i).bind (fun s =>
            ((builtEvents bl action).get? j).map (fun e => (s.handler, e))))

/-- A subscription spec with an explicit tag t1 on expression a.b. -/
def regSpec1 : ITrigger :=
  { handler := 0, tag := strL ("t1"), expression := strL ("a.b"),
    statement := none, enable := none }

/-- Registry after registering regSpec1 in the empty registry. -/
def regSt1 : Registry := (add emptyReg regSpec1 (strL ("zzz"))).2.1

/-- Registry after removing tag t1 again. -/
def regSt2 : Registry := remove regSt1 (strL ("t1"))

/-- A second spec with a fresh tag t2 on the same expression a.b. -/
def regSpec2 : ITrigger :=
  { handler := 1, tag := strL ("t2"), expression := strL ("a.b"),
    statement := none, enable := none }

/-- A first raw insert row. -/
def rowA : RawRow := RawRow.plain [(strL ("id"), JSValue.vNum 1)]

/-- A second raw insert row, distinct from the first. -/
def rowB : RawRow := RawRow.plain [(strL ("id"), JSValue.vNum 2)]

/-- The shared event template object of the aliasing variant for an INSERT
batch on shop.orders. -/
def evT : Event := getEventObject STATEMENTS.INSERT (strL ("shop.orders")) 5

/-- Subscription owning the lone empty tag: a state exercising the falsy
skip of the matcher. -/
def trgB : ITrigger :=
  { handler := 7, tag := [], expression := strL ("*"),
    statement := some STATEMENTS.ALL, enable := some true }

/-- Registry whose single expression entry resolves to the subscription
registered under the empty tag. -/
def stBad : Registry :=
  { triggers := [([], trgB)], tags := [(strL ("*"), [])] }

/-- A spec subscribing to everything, used for the dispatch scenario. -/
def specOne : ITrigger :=
  { handler := 3, tag := strL ("tg"), expression := strL ("*"),
    statement := none, enable := none }

/-- Registry holding only the specOne subscription. -/
def stOne : Registry := (add emptyReg specOne (strL ("qq"))).2.1

/-- The subscription object as it sits in stOne after the defaulting done
by add. -/
def trgOne : ITrigger :=
  { handler := 3, tag := strL ("tg"), expression := strL ("*"),
    statement := some STATEMENTS.ALL, enable := some true }

/-- A two-row INSERT batch on shop.orders. -/
def blOne : BinlogEvent :=
  { parentSchema := strL ("shop"), tableName := strL ("orders"),
    timestamp := 9, rows := [rowA, rowB] }

/-- Before image of the update example: status A, qty numeric 1. -/
def exBefore : Row :=
  [(strL ("status"), JSValue.vStr (strL ("A"))), (strL ("qty"), JSValue.vNum 1)]

/-- After image of the update example: status B, qty numeric 1. -/
def exAfter : Row :=
  [(strL ("status"), JSValue.vStr (strL ("B"))), (strL ("qty"), JSValue.vNum 1)]

theorem mget_mset_self {α : Type} (m : List (Str × α)) (k : Str) (v : α) :
    mget (mset m k v) k = some v := by
  induction m with
  | nil => simp [mset, mget]
  | cons p rest ih =>
    obtain ⟨a, b⟩ := p
    by_cases hk : a = k
    · simp [mset, hk, mget]
    · simp [mset, hk, mget, ih]

theorem mget_mset_ne {α : Type} (m : List (Str × α)) (k k' : Str) (v : α)
    (h : k' ≠ k) : mget (mset m k v) k' = mget m k' := by
  induction m with
  | nil =>
    simp only [mset, mget]
    rw [if_neg (fun hh => h hh.symm)]
  | cons p rest ih =>
    obtain ⟨a, b⟩ := p
    by_cases hk : a = k
    · subst hk
      simp only [mset, if_pos rfl, mget]
      rw [if_neg (fun hh => h hh.symm), if_neg (fun hh => h hh.symm)]
    · simp only [mset, if_neg hk, mget]
      by_cases ha : a = k'
      · rw [if_pos ha, if_pos ha]
      · rw [if_neg ha, if_neg ha]
        exact ih

/-- Claim C2: the claim says remove deletes both the tag entry and the
expression entry so a later add with the same expression succeeds; the code
only deletes the tag entry. After adding tag t1 on a.b and removing it, the
tags map still sends a.b to t1, a second registration on a.b with a fresh
tag is rejected with a null result, and the registry is left unchanged by
that rejected call. -/
theorem remove_dangling_expression :
    (add emptyReg regSpec1 (strL ("zzz"))).1 = Except.ok (some (strL ("t1"))) ∧
    mget regSt2.triggers (strL ("t1")) = none ∧
    mget regSt2.tags (strL ("a.b")) = some (strL ("t1")) ∧
    (add regSt2 regSpec2 (strL ("yyy"))).1 = Except.ok none ∧
    (add regSt2 regSpec2 (strL ("yyy"))).2.1 = regSt2 := by
  decide

/-- Claim C9: the claim says the matcher is total on every state reachable
by the public operations; it is not. After add of tag t1 on a.b followed by
remove of t1, both public operations from the empty registry, the matcher
on path a.b finds the dangling expression entry, fetches the missing
trigger and dies on the destructure of undefined, modelled by the none
result. -/
theorem match_crashes_after_remove :
    (add emptyReg regSpec1 (strL ("zzz"))).1 = Except.ok (some (strL ("t1"))) ∧
    getTriggers regSt2 (strL ("a.b")) STATEMENTS.INSERT = none := by
  decide

/-- Claim C5: the claim says the builder returns one event per row with
the i-th event reflecting the i-th row; the aliasing variant of the code
does not. With two distinct INSERT rows, both output positions hold the
event of the last row, so the first position does not reflect the first
row. -/
theorem builder_aliasing_last_row :
    getManyEvents evT STATEMENTS.INSERT [rowA, rowB] =
      [{ evT with dataNew := some rowB }, { evT with dataNew := some rowB }] ∧
    ({ evT with dataNew := some rowB } : Event) ≠ { evT with dataNew := some rowA } := by
  decide

/-- The second builder variant of the repository constructs a fresh event
per row and does reflect each row at its own position. -/
theorem builder_fresh_variant_per_row :
    getManyEvents2 STATEMENTS.INSERT [rowA, rowB]
        { path := strL ("shop.orders"), timestamp := 5 } =
      [{ evT with dataNew := some rowA }, { evT with dataNew := some rowB }] := by
  decide

/-- Claim C3: for a spec with a callable handler whose expression
normalizes, if the defaulted tag or the normalized expression collides,
add returns the null rejection and both maps are exactly unchanged; if
neither collides, add returns the final tag, both maps receive exactly the
new entry, and every other key is untouched. -/
theorem add_collision_atomic (st : Registry) (spec : ITrigger) (fresh ne : Str)
    (h : checkExpression spec.expression = Except.ok ne) :
    ((mhas st.triggers (dtagOf spec fresh) || mhas st.tags ne) = true →
      (add st spec fresh).1 = Except.ok none ∧ (add st spec fresh).2.1 = st) ∧
    ((mhas st.triggers (dtagOf spec fresh) || mhas st.tags ne) = false →
      (add st spec fresh).1 = Except.ok (some (dtagOf spec fresh)) ∧
      mget (add st spec fresh).2.1.triggers (dtagOf spec fresh) = some ((add st spec fresh).2.2) ∧
      mget (add st spec fresh).2.1.tags ne = some (dtagOf spec fresh) ∧
      (∀ k, k ≠ dtagOf spec fresh →
        mget (add st spec fresh).2.1.triggers k = mget st.triggers k) ∧
      (∀ e, e ≠ ne → mget (add st spec fresh).2.1.tags e = mget st.tags e)) := by
  simp only [add, dtagOf]
  rw [h]
  constructor
  · intro hb
    simp [hb]
  · intro hb
    simp [hb, mget_mset_self, mget_mset_ne]
    constructor
    · intro k hk
      exact mget_mset_ne _ _ _ _ hk
    · intro e he
      exact mget_mset_ne _ _ _ _ he

/-- Claim C3 witness: registering the specOne spec a second time collides
on its tag and on its expression, the call returns the null rejection and
the registry is unchanged. -/
theorem add_collision_atomic_witness :
    checkExpression specOne.expression = Except.ok (strL ("*")) ∧
    (mhas stOne.triggers (dtagOf specOne (strL ("qq"))) || mhas stOne.tags (strL ("*"))) = true ∧
    ((mhas stOne.triggers (dtagOf specOne (strL ("qq"))) || mhas stOne.tags (strL ("*"))) = true →
      (add stOne specOne (strL ("qq"))).1 = Except.ok none ∧
      (add stOne specOne (strL ("qq"))).2.1 = stOne) :=
  ⟨by decide, by decide,
   (add_collision_atomic stOne specOne (strL ("qq")) (strL ("*")) (by decide)).1⟩

/-- Claim C10: add mutates the caller-owned spec object before the
uniqueness check: enable is forced to true, statement defaults to ALL, the
tag defaults to the generated tag, the expression is replaced by its
normalized form, and the mutated object is what the caller holds even when
the call then returns the null rejection. -/
theorem add_mutates_caller_object (st : Registry) (spec : ITrigger) (fresh ne : Str)
    (h : checkExpression spec.expression = Except.ok ne) :
    (add st spec fresh).2.2 =
      { handler := spec.handler, tag := dtagOf spec fresh, expression := ne,
        statement := some (spec.statement.getD STATEMENTS.ALL), enable := some true } ∧
    ((mhas st.triggers (dtagOf spec fresh) || mhas st.tags ne) = true →
      (add st spec fresh).1 = Except.ok none) := by
  simp only [add, dtagOf]
  rw [h]
  constructor
  · by_cases hb : (mhas st.triggers (if spec.tag = [] then fresh else spec.tag) || mhas st.tags ne) = true
    · simp [hb]
    · simp only [Bool.not_eq_true] at hb
      simp [hb]
  · intro hb
    simp [hb]

/-- Claim C10 witness: re-registering specOne is rejected for collision,
yet the caller-owned object has been mutated to its defaulted form. -/
theorem add_mutates_caller_object_witness :
    checkExpression specOne.expression = Except.ok (strL ("*")) ∧
    ((add stOne specOne (strL ("qq"))).2.2 =
      { handler := specOne.handler, tag := dtagOf specOne (strL ("qq")),
        expression := strL ("*"),
        statement := some (specOne.statement.getD STATEMENTS.ALL), enable := some true } ∧
     ((mhas stOne.triggers (dtagOf specOne (strL ("qq"))) || mhas stOne.tags (strL ("*"))) = true →
       (add stOne specOne (strL ("qq"))).1 = Except.ok none)) :=
  ⟨by decide, add_mutates_caller_object stOne specOne (strL ("qq")) (strL ("*")) (by decide)⟩

theorem diffFold (a : Row) :
    ∀ (b : Row) (acc : List Str),
      (b.map Prod.fst).Nodup →
      (∀ k, k ∈ b.map Prod.fst → k ∉ acc) →
      b.foldl
        (fun acc2 kv =>
          if (jsToStr kv.2 = jsToStr (jsGet a kv.1) : Bool) = false then setAdd acc2 kv.1 else acc2)
        acc
        = acc ++ (b.filter (fun kv => !(jsToStr kv.2 = jsToStr (jsGet a kv.1) : Bool))).map Prod.fst := by
  intro b
  induction b with
  | nil =>
    intro acc _ _
    simp
  | cons kv rest ih =>
    intro acc hnd hdis
    have hnd0 : kv.1 ∉ rest.map Prod.fst := by
      simp only [List.map_cons, List.nodup_cons] at hnd
      exact hnd.1
    have hnd' : (rest.map Prod.fst).Nodup := by
      simp only [List.map_cons, List.nodup_cons] at hnd
      exact hnd.2
    simp only [List.foldl_cons]
    by_cases hc : (jsToStr kv.2 = jsToStr (jsGet a kv.1) : Bool) = false
    · rw [if_pos hc]
      have hk : kv.1 ∉ acc := hdis kv.1 (List.mem_cons_self _ _)
      have hsa : setAdd acc kv.1 = acc ++ [kv.1] := by simp [setAdd, hk]
      rw [hsa]
      have hdis' : ∀ k, k ∈ rest.map Prod.fst → k ∉ acc ++ [kv.1] := by
        intro k hkmem
        simp only [List.mem_append, List.mem_singleton]
        rintro (h1 | h2)
        · exact hdis k (List.mem_cons_of_mem _ hkmem) h1
        · subst h2
          exact hnd0 hkmem
      rw [ih (acc ++ [kv.1]) hnd' hdis']
      simp [List.filter_cons, hc]
    · rw [if_neg hc]
      have hdis' : ∀ k, k ∈ rest.map Prod.fst → k ∉ acc := by
        intro k hkmem
        exact hdis k (List.mem_cons_of_mem _ hkmem)
      rw [ih acc hnd' hdis']
      simp only [Bool.not_eq_false] at hc
      simp [List.filter_cons, hc]

/-- Claim C4: for an UPDATE row with a before and an after image whose
before keys are free of duplicates, the built event carries the before
image as old, the after image as new, and as changed columns exactly the
before fields whose stringified values differ; the stringified comparison
makes numeric 1 against text 1 a non-change, and the status and qty
example changes only status. -/
theorem update_changed_columns (ev : Event) (b a : Row)
    (hnd : (b.map Prod.fst).Nodup) :
    applyRow ev STATEMENTS.UPDATE (RawRow.updRow b a) =
      { ev with
          dataOld := some (RawRow.plain b)
          dataNew := some (RawRow.plain a)
          changedColumns :=
            (b.filter (fun kv => !(jsToStr kv.2 = jsToStr (jsGet a kv.1) : Bool))).map Prod.fst } ∧
    diffCols exBefore exAfter = [strL ("status")] ∧
    diffCols [(strL ("qty"), JSValue.vNum 1)] [(strL ("qty"), JSValue.vStr (strL ("1")))] = [] := by
  refine ⟨?_, by decide, by decide⟩
  have hfold := diffFold a b [] hnd (fun k _ hmem => by simp at hmem)
  have hdc : diffCols b a =
      (b.filter (fun kv => !(jsToStr kv.2 = jsToStr (jsGet a kv.1) : Bool))).map Prod.fst := by
    unfold diffCols
    rw [hfold]
    simp
  simp [applyRow, hdc]

/-- Claim C4 witness: the status and qty example instantiated, with the
duplicate-freedom hypothesis discharged by evaluation. -/
theorem update_changed_columns_witness :
    (exBefore.map Prod.fst).Nodup ∧
    (applyRow evT STATEMENTS.UPDATE (RawRow.updRow exBefore exAfter) =
      { evT with
          dataOld := some (RawRow.plain exBefore)
          dataNew := some (RawRow.plain exAfter)
          changedColumns :=
            (exBefore.filter
              (fun kv => !(jsToStr kv.2 = jsToStr (jsGet exAfter kv.1) : Bool))).map Prod.fst } ∧
     diffCols exBefore exAfter = [strL ("status")] ∧
     diffCols [(strL ("qty"), JSValue.vNum 1)] [(strL ("qty"), JSValue.vStr (strL ("1")))] = []) :=
  ⟨by decide, update_changed_columns evT exBefore exAfter (by decide)⟩

theorem runCandidates_eq (st : Registry) (act : STATEMENTS)
    (hres : ∀ e t, mget st.tags e = some t → t ≠ [] ∧ (mget st.triggers t).isSome = true) :
    ∀ (es : List Str) (acc : List ITrigger),
      runCandidates st act es acc = some (acc ++ es.filterMap (candf st act)) := by
  intro es
  induction es with
  | nil =>
    intro acc
    simp [runCandidates]
  | cons e es ih =>
    intro acc
    simp only [runCandidates]
    cases hmt : mget st.tags e with
    | none =>
      simp [List.filterMap_cons, candf, hmt, ih]
    | some t =>
      obtain ⟨hne, hsome⟩ := hres e t hmt
      dsimp only
      rw [if_neg hne]
      cases hmg : mget st.triggers t with
      | none =>
        rw [hmg] at hsome
        simp at hsome
      | some g =>
        dsimp only
        by_cases hcnd : (g.statement = some STATEMENTS.ALL ∨ g.statement = some act) ∧
            g.enable = some true
        · rw [if_pos hcnd, ih]
          have hcf : candf st act e = some g := by
            simp only [candf, hmt, hmg, Option.some_bind]
            rw [if_pos ⟨hcnd.2, hcnd.1⟩]
          simp [List.filterMap_cons, hcf]
        · rw [if_neg hcnd, ih]
          have hcf : candf st act e = none := by
            simp only [candf, hmt, hmg, Option.some_bind]
            rw [if_neg (fun hc => hcnd ⟨hc.2, hc.1⟩)]
          simp [List.filterMap_cons, hcf]

/-- Claim C1, amended: on a registry state in which every expression entry
holds a non-empty tag resolving to a subscription (the implementation
treats an empty-string tag as falsy and skips it, so the non-emptiness is
needed), the matcher on a database, table and action returns exactly the
subscriptions owning one of the four candidate expressions that are
enabled with a statement equal to ALL or to the action, in the fixed
candidate order, and between zero and four subscriptions result with no
broader match suppressed. -/
theorem match_candidate_semantics (st : Registry) (db tbl : Str) (act : STATEMENTS)
    (hres : ∀ e t, mget st.tags e = some t → t ≠ [] ∧ (mget st.triggers t).isSome = true)
    (_hact : act = STATEMENTS.INSERT ∨ act = STATEMENTS.UPDATE ∨ act = STATEMENTS.DELETE) :
    getTriggersCore st db tbl act = some (specMatch st db tbl act) ∧
    (specMatch st db tbl act).length ≤ 4 := by
  constructor
  · have h := runCandidates_eq st act hres (pathOptions db tbl) []
    simpa [getTriggersCore, specMatch] using h
  · have h : (specMatch st db tbl act).length ≤ (pathOptions db tbl).length :=
      List.length_filterMap_le _ _
    simpa [pathOptions] using h

/-- Claim C1 witness: the amended matcher theorem applied to the one
subscription registry on an INSERT over shop.orders. -/
theorem match_candidate_semantics_witness :
    (∀ e t, mget stOne.tags e = some t → t ≠ [] ∧ (mget stOne.triggers t).isSome = true) ∧
    (getTriggersCore stOne (strL ("shop")) (strL ("orders")) STATEMENTS.INSERT =
      some (specMatch stOne (strL ("shop")) (strL ("orders")) STATEMENTS.INSERT) ∧
     (specMatch stOne (strL ("shop")) (strL ("orders")) STATEMENTS.INSERT).length ≤ 4) := by
  have hres : ∀ e t, mget stOne.tags e = some t → t ≠ [] ∧ (mget stOne.triggers t).isSome = true := by
    intro e t h
    simp only [stOne] at h
    by_cases he : strL ("*") = e
    · rw [show mget (add emptyReg specOne (strL ("qq"))).2.1.tags e =
          mget (add emptyReg specOne (strL ("qq"))).2.1.tags (strL ("*")) by rw [he]] at h
      have : t = strL ("tg") := by
        rw [show mget (add emptyReg specOne (strL ("qq"))).2.1.tags (strL ("*")) =
            some (strL ("tg")) from by decide] at h
        exact (Option.some.injEq _ _ ▸ h).symm
      subst this
      exact ⟨by decide, by decide⟩
    · exfalso
      rw [show mget (add emptyReg specOne (strL ("qq"))).2.1.tags e =
          (if strL ("*") = e then some (strL ("tg")) else none) from by rfl] at h
      rw [if_neg he] at h
      cases h
  exact ⟨hres, match_candidate_semantics stOne (strL ("shop")) (strL ("orders"))
    STATEMENTS.INSERT hres (Or.inl rfl)⟩

/-- Claim C1 counterexample: a state whose single expression entry maps
the global wildcard to the empty tag, which resolves in the tag map to an
enabled ALL subscription; the claim as stated predicts that subscription
in the result, yet the matcher skips the falsy empty tag and returns
nothing. -/
theorem match_skips_empty_tag :
    (∀ e t, mget stBad.tags e = some t → (mget stBad.triggers t).isSome = true) ∧
    getTriggersCore stBad (strL ("shop")) (strL ("orders")) STATEMENTS.INSERT = some [] ∧
    specMatch stBad (strL ("shop")) (strL ("orders")) STATEMENTS.INSERT = [trgB] ∧
    trgB.enable = some true ∧ trgB.statement = some STATEMENTS.ALL := by
  refine ⟨?_, by decide, by decide, by decide, by decide⟩
  intro e t h
  rw [show mget stBad.tags e = (if strL ("*") = e then some [] else none) from rfl] at h
  by_cases he : strL ("*") = e
  · rw [if_pos he] at h
    have : t = [] := (Option.some.injEq _ _ ▸ h).symm
    subst this
    decide
  · rw [if_neg he] at h
    cases h

theorem dispatchTrace_length (ts : List ITrigger) (es : List Event) :
    (dispatchTrace ts es).length = ts.length * es.length := by
  induction ts with
  | nil => simp [dispatchTrace]
  | cons t rest ih =>
    simp [dispatchTrace, ih, Nat.succ_mul, Nat.add_comm]

theorem dispatchTrace_get (ts : List ITrigger) (es : List Event) :
    ∀ i j, i < ts.length → j < es.length →
      (dispatchTrace ts es).get? (i * es.length + j) =
        (ts.get? i).bind (fun t => (es.get? j).map (fun e => (t.handler, e))) := by
  induction ts with
  | nil =>
    intro i j hi _
    simp at hi
  | cons t rest ih =>
    intro i j hi hj
    cases i with
    | zero =>
      simp only [dispatchTrace, Nat.zero_mul, Nat.zero_add, List.get?_eq_getElem?]
      rw [List.getElem?_append, if_pos (by simpa using hj)]
      simp [List.getElem?_map, List.getElem?_eq_getElem hj]
    | succ i =>
      simp only [dispatchTrace, List.get?_eq_getElem?]
      rw [List.getElem?_append, if_neg (by simp [Nat.succ_mul]; omega)]
      have harith : (i + 1) * es.length + j - (es.map (fun e => (t.handler, e))).length =
          i * es.length + j := by
        simp [Nat.succ_mul]
        omega
      rw [harith]
      have := ih i j (Nat.lt_of_succ_lt_succ hi) hj
      simpa [List.get?_eq_getElem?] using this

/-- Claim C8: for a raw batch whose matcher result is the subscriber list
subs, an empty subs short-circuits the handler with no invocations and no
builder work, and a non-empty subs produces a trace of exactly
subs.length times rows.length invocations, blocked per subscriber in
matcher order, each block running through the built events in row order. -/
theorem dispatch_order (st : Registry) (bl : BinlogEvent) (action : STATEMENTS)
    (subs : List ITrigger) (hm : getTriggers st (pathOf bl) action = some subs) :
    DispatchSpec st bl action subs := by
  constructor
  · intro hempty
    subst hempty
    simp [eventHandler, hm]
  · intro hne
    have hlen0 : ¬ subs.length = 0 := by
      intro h0
      exact hne (List.length_eq_zero.mp h0)
    have hblen : (builtEvents bl action).length = bl.rows.length := by
      simp [builtEvents, getManyEvents]
    refine ⟨dispatchTrace subs (builtEvents bl action), ?_, ?_, ?_⟩
    · simp [eventHandler, hm, hlen0]
    · rw [dispatchTrace_length, hblen]
    · intro i j hi hj
      have hj' : j < (builtEvents bl action).length := by
        rw [hblen]
        exact hj
      have h := dispatchTrace_get subs (builtEvents bl action) i j hi hj'
      rw [hblen] at h
      exact h

/-- Claim C8 witness: the dispatch contract instantiated on the single
wildcard subscriber and the two-row INSERT batch on shop.orders. -/
theorem dispatch_order_witness :
    getTriggers stOne (pathOf blOne) STATEMENTS.INSERT = some [trgOne] ∧
    DispatchSpec stOne blOne STATEMENTS.INSERT [trgOne] :=
  ⟨by decide, dispatch_order stOne blOne STATEMENTS.INSERT [trgOne] (by decide)⟩

theorem splitDot_ne_nil : ∀ s : Str, splitDot s ≠ [] := by
  intro s
  induction s with
  | nil => simp [splitDot]
  | cons c cs ih =>
    simp only [splitDot]
    by_cases hc : c = ('.')
    · simp [hc]
    · rw [if_neg hc]
      cases h : splitDot cs with
      | nil => simp
      | cons p ps => simp

theorem splitDot_no_dot : ∀ s : Str, ('.') ∉ s → splitDot s = [s] := by
  intro s
  induction s with
  | nil =>
    intro _
    rfl
  | cons c cs ih =>
    intro h
    have hc : ¬ c = ('.') := fun hh => h (hh ▸ List.mem_cons_self _ _)
    have hcs : ('.') ∉ cs := fun hh => h (List.mem_cons_of_mem _ hh)
    simp only [splitDot]
    rw [if_neg hc, ih hcs]

theorem splitDot_append : ∀ (a b : Str), ('.') ∉ a →
    splitDot (a ++ ('.') :: b) = a :: splitDot b := by
  intro a
  induction a with
  | nil =>
    intro b _
    simp [splitDot]
  | cons c cs ih =>
    intro b h
    have hc : ¬ c = ('.') := fun hh => h (hh ▸ List.mem_cons_self _ _)
    have hcs : ('.') ∉ cs := fun hh => h (List.mem_cons_of_mem _ hh)
    have ih' : splitDot (List.append cs (('.') :: b)) = cs :: splitDot b := ih b hcs
    simp only [List.cons_append, splitDot, if_neg hc]
    rw [ih']

theorem splitDot_dotFree : ∀ (s : Str) (p : Str), p ∈ splitDot s → ('.') ∉ p := by
  intro s
  induction s with
  | nil =>
    intro p hp
    simp [splitDot] at hp
    subst hp
    simp
  | cons c cs ih =>
    intro p hp
    simp only [splitDot] at hp
    by_cases hc : c = ('.')
    · rw [if_pos hc] at hp
      rcases List.mem_cons.mp hp with h1 | h2
      · subst h1
        simp
      · exact ih p h2
    · rw [if_neg hc] at hp
      cases hsp : splitDot cs with
      | nil =>
        rw [hsp] at hp
        simp at hp
        subst hp
        intro hmem
        exact hc (List.mem_singleton.mp hmem).symm
      | cons q qs =>
        rw [hsp] at hp
        rcases List.mem_cons.mp hp with h1 | h2
        · subst h1
          intro hmem
          rcases List.mem_cons.mp hmem with hh | hh
          · exact hc hh.symm
          · exact ih q (by rw [hsp]; exact List.mem_cons_self _ _) hh
        · exact ih p (by rw [hsp]; exact List.mem_cons_of_mem _ h2)

theorem joinDot_splitDot : ∀ s : Str, joinDot (splitDot s) = s := by
  have hjc : ∀ (c : Char) (q : Str) (qs : List Str),
      joinDot ((c :: q) :: qs) = c :: joinDot (q :: qs) := by
    intro c q qs
    cases qs <;> rfl
  intro s
  induction s with
  | nil => rfl
  | cons c cs ih =>
    simp only [splitDot]
    by_cases hc : c = ('.')
    · rw [if_pos hc]
      cases hsp : splitDot cs with
      | nil => exact absurd hsp (splitDot_ne_nil cs)
      | cons q qs =>
        rw [hsp] at ih
        show joinDot ([] :: q :: qs) = c :: cs
        rw [show joinDot ([] :: q :: qs) = [] ++ ('.') :: joinDot (q :: qs) from rfl]
        rw [ih, hc]
        rfl
    · rw [if_neg hc]
      cases hsp : splitDot cs with
      | nil => exact absurd hsp (splitDot_ne_nil cs)
      | cons q qs =>
        rw [hsp] at ih
        show joinDot ((c :: q) :: qs) = c :: cs
        rw [hjc, ih]

/-- Claim C6: normalize returns every valid two-part expression a.b with
both parts non-empty unchanged (valid meaning dot-free parts, and
excluding star-dot-star which the claim itself sends to the lone star);
the empty string, the star and star-dot-star all normalize to the star; a
missing schema part becomes a star, a missing table part becomes a star,
and a three-part input fails with the InvalidExpression error. -/
theorem normalize_examples :
    (∀ a b : Str, a ≠ [] → b ≠ [] → ('.') ∉ a → ('.') ∉ b →
      ¬(a = strL ("*") ∧ b = strL ("*")) →
      checkExpression (a ++ ('.') :: b) = Except.ok (a ++ ('.') :: b)) ∧
    checkExpression [] = Except.ok (strL ("*")) ∧
    checkExpression (strL ("*")) = Except.ok (strL ("*")) ∧
    checkExpression (strL ("*.*")) = Except.ok (strL ("*")) ∧
    checkExpression (strL (".b")) = Except.ok (strL ("*.b")) ∧
    checkExpression (strL ("a.")) = Except.ok (strL ("a.*")) ∧
    checkExpression (strL ("a.b.c")) = Except.error ExprError.InvalidExpression := by
  refine ⟨?_, by decide, by decide, by decide, by decide, by decide, by decide⟩
  intro a b ha hb hda hdb hstar
  have hsp : splitDot (a ++ ('.') :: b) = [a, b] := by
    rw [splitDot_append a b hda, splitDot_no_dot b hdb]
  have hne1 : a ++ ('.') :: b ≠ [] := by
    cases a <;> simp
  have hne2 : a ++ ('.') :: b ≠ strL ("*") := by
    intro hh
    have hmem : ('.') ∈ a ++ ('.') :: b := by simp
    rw [hh] at hmem
    exact absurd hmem (by decide)
  have hne3 : a ++ ('.') :: b ≠ strL ("*.*") := by
    intro hh
    have h2 : splitDot (strL ("*.*")) = [a, b] := by
      rw [← hh]
      exact hsp
    have h3 : splitDot (strL ("*.*")) = [strL ("*"), strL ("*")] := by decide
    rw [h3] at h2
    injection h2 with h4 h5
    injection h5 with h6 _
    exact hstar ⟨h4.symm, h6.symm⟩
  unfold checkExpression
  rw [if_neg (by push_neg; exact ⟨hne1, hne2, hne3⟩)]
  rw [hsp]
  dsimp only
  rw [if_neg ha, if_neg hb]

/-- Claim C6 witness: the unchanged clause instantiated on shop.orders. -/
theorem normalize_examples_witness :
    (strL ("shop") ≠ ([] : Str) ∧ strL ("orders") ≠ ([] : Str)) ∧
    checkExpression (strL ("shop") ++ ('.') :: strL ("orders")) =
      Except.ok (strL ("shop") ++ ('.') :: strL ("orders")) :=
  ⟨⟨by decide, by decide⟩,
   normalize_examples.1 (strL ("shop")) (strL ("orders"))
     (by decide) (by decide) (by decide) (by decide) (by decide)⟩

/-- Claim C7, amended: every successful normalization yields one of the
four canonical shapes, except that the input consisting of a single dot
yields star-dot (an empty table name), and the inputs star-dot and
dot-star yield star-dot-star, which none of the four shapes covers. -/
theorem normalize_shape (s r : Str) (h : checkExpression s = Except.ok r) :
    FourShape r ∨ (s = strL (".") ∧ r = strL ("*.")) ∨
    ((s = strL ("*.") ∨ s = strL (".*")) ∧ r = strL ("*.*")) := by
  unfold checkExpression at h
  by_cases h0 : s = [] ∨ s = strL ("*") ∨ s = strL ("*.*")
  · rw [if_pos h0] at h
    injection h with h1
    exact Or.inl (Or.inl h1.symm)
  · rw [if_neg h0] at h
    cases hsp : splitDot s with
    | nil => exact absurd hsp (splitDot_ne_nil s)
    | cons p0 ps =>
      rw [hsp] at h
      cases ps with
      | nil => simp at h
      | cons p1 ps2 =>
        cases ps2 with
        | cons q qs => simp at h
        | nil =>
          dsimp only at h
          have hdf0 : ('.') ∉ p0 :=
            splitDot_dotFree s p0 (by rw [hsp]; exact List.mem_cons_self _ _)
          have hdf1 : ('.') ∉ p1 :=
            splitDot_dotFree s p1
              (by rw [hsp]; exact List.mem_cons_of_mem _ (List.mem_cons_self _ _))
          have hjoin : s = p0 ++ ('.') :: p1 := by
            have hj := joinDot_splitDot s
            rw [hsp] at hj
            have hred : joinDot [p0, p1] = p0 ++ ('.') :: p1 := by
              cases p1 <;> rfl
            rw [hred] at hj
            exact hj.symm
          by_cases hp0 : p0 = []
          · rw [if_pos hp0] at h
            injection h with hr
            subst hp0
            by_cases hp1 : p1 = []
            · subst hp1
              refine Or.inr (Or.inl ⟨?_, ?_⟩)
              · rw [hjoin]
                rfl
              · rw [← hr]
                rfl
            · by_cases hp1s : p1 = strL ("*")
              · subst hp1s
                refine Or.inr (Or.inr ⟨Or.inr ?_, ?_⟩)
                · rw [hjoin]
                  rfl
                · rw [← hr]
                  rfl
              · exact Or.inl (Or.inr (Or.inr (Or.inl ⟨p1, hdf1, hp1, hp1s, hr.symm⟩)))
          · rw [if_neg hp0] at h
            by_cases hp1 : p1 = []
            · rw [if_pos hp1] at h
              injection h with hr
              subst hp1
              by_cases hp0s : p0 = strL ("*")
              · subst hp0s
                refine Or.inr (Or.inr ⟨Or.inl ?_, ?_⟩)
                · rw [hjoin]
                  rfl
                · rw [← hr]
                  rfl
              · exact Or.inl (Or.inr (Or.inl ⟨p0, hdf0, hp0, hp0s, hr.symm⟩))
            · rw [if_neg hp1] at h
              injection h with hr
              by_cases hp0s : p0 = strL ("*")
              · by_cases hp1s : p1 = strL ("*")
                · exfalso
                  apply h0
                  right
                  right
                  rw [hjoin, hp0s, hp1s]
                  rfl
                · refine Or.inl (Or.inr (Or.inr (Or.inl ⟨p1, hdf1, hp1, hp1s, ?_⟩)))
                  rw [← hr, hjoin, hp0s]
                  rfl
              · by_cases hp1s : p1 = strL ("*")
                · refine Or.inl (Or.inr (Or.inl ⟨p0, hdf0, hp0, hp0s, ?_⟩))
                  rw [← hr, hjoin, hp1s]
                  rfl
                · refine Or.inl (Or.inr (Or.inr (Or.inr ⟨p0, p1, hdf0, hdf1, hp0, hp1, hp0s, hp1s, ?_⟩)))
                  rw [← hr]
                  exact hjoin

/-- Claim C7 witness: the amended shape theorem applied to the exact
expression x.y. -/
theorem normalize_shape_witness :
    checkExpression (strL ("x.y")) = Except.ok (strL ("x.y")) ∧
    (FourShape (strL ("x.y")) ∨ (strL ("x.y") = strL (".") ∧ strL ("x.y") = strL ("*.")) ∨
     ((strL ("x.y") = strL ("*.") ∨ strL ("x.y") = strL (".*")) ∧ strL ("x.y") = strL ("*.*"))) :=
  ⟨by decide, normalize_shape (strL ("x.y")) (strL ("x.y")) (by decide)⟩

/-- Claim C7 counterexample: normalize of the single dot succeeds with
the string star-dot, which is none of the four canonical shapes. -/
theorem normalize_dot_shape :
    checkExpression (strL (".")) = Except.ok (strL ("*.")) ∧ ¬ FourShape (strL ("*.")) := by
  refine ⟨by decide, ?_⟩
  have e1 : strL ("*.") = ['*', ('.')] := rfl
  have e2 : strL (".*") = [('.'), '*'] := rfl
  intro hfs
  rcases hfs with h1 | ⟨d, hdf, hdne, hds, hr⟩ | ⟨t, htf, htne, hts, hr⟩ |
    ⟨d, t, hdf2, htf2, hdne2, htne2, hds2, hts2, hr2⟩
  · exact absurd h1 (by decide)
  · rw [e1, e2] at hr
    have hl := congrArg List.length hr
    simp at hl
    exact hdne hl
  · rw [e1] at hr
    have hl := congrArg List.length hr
    simp at hl
    exact htne hl
  · rw [e1] at hr2
    have hl := congrArg List.length hr2
    simp at hl
    have hd1 : 1 ≤ d.length := List.length_pos.mpr hdne2
    have ht1 : 1 ≤ t.length := List.length_pos.mpr htne2
    omega
